import Mathlib

/-!
# Verification of the aks-middleware outbound-call instrumentation layer

Shallow embedding of `policy/policy.go` and `restlogger/restlogger.go`.
Go strings are modelled as `List Char`; Go's `net/url` values are modelled by
the `GoURL` structure (scheme, host, escaped path, parsed query pairs), which
covers the fields the middleware reads (`Query`, `Host`, `String`).  The
`slog` sink is modelled by returning the list of emitted `LogEntry` values.
-/

namespace AksMiddleware

/-- A Go string, modelled as its list of characters. -/
abbrev GoStr := List Char

/-- Embed a Lean string literal as a `GoStr`. -/
def gs (s : String) : GoStr := s.toList

/-- Go `strings.Contains s sub`: `sub` occurs as a contiguous substring of `s`. -/
def goContains (s sub : GoStr) : Bool := decide (sub <:+: s)

/-- Go `strings.ContainsAny s chars`: some character of `chars` occurs in `s`. -/
def goContainsAny (s chars : GoStr) : Bool := s.any (fun c => chars.contains c)

/-- Go `s[:strings.IndexAny s chars]`: the prefix of `s` before the first
character drawn from `chars`.  (In `policy.go` it is only evaluated after a
positive `strings.ContainsAny` check.) -/
def truncAtAny (s chars : GoStr) : GoStr := s.takeWhile (fun c => !chars.contains c)

/-- Go `strings.Split s (String.singleton c)`: split at every occurrence of the
one-character separator, keeping empty segments, as `strings.Split` does. -/
def goSplit (c : Char) : GoStr → List GoStr
  | [] => [[]]
  | x :: xs =>
    if x = c then [] :: goSplit c xs
    else
      match goSplit c xs with
      | [] => [[x]]
      | y :: ys => (x :: y) :: ys

/-- The `resourceTypes` table of `policy.go` (note the mixed-case
`storageAccounts` entry, exactly as in the source). -/
def resourceTypes : List GoStr :=
  [gs "resourcegroups", gs "storageAccounts", gs "operationresults", gs "asyncoperations"]

/-- The literal `"api-version"` scanned for by `Do` and used as the query key. -/
def apiVersionLit : GoStr := gs "api-version"

/-- The scan in `Do` that finds the first path segment containing
`"api-version"` (`apiVersionIndex`, with `none` for Go's `-1` sentinel). -/
def findApiVersion : List GoStr → Option Nat
  | [] => none
  | seg :: rest =>
    if goContains seg apiVersionLit then some 0
    else (findApiVersion rest).map (· + 1)

/-- The resource-type selection of `Do` once `apiVersionIndex = i > 0` is
known: default to the segment at `i` itself, then replace it by the first
vocabulary entry contained in the segment at `i - 1`. -/
def resolveToken (splitPath : List GoStr) (i : Nat) : GoStr :=
  match resourceTypes.find? (fun rt => goContains (splitPath.getD (i - 1) []) rt) with
  | some rt => rt
  | none => splitPath.getD i []

/-- The GET-only suffixing step of `Do`: truncate at the first `?` or `/` and
append `" - LIST"`, or append `" - READ"`; non-GET methods are untouched. -/
def addGetSuffix (method rt : GoStr) : GoStr :=
  if method = gs "GET" then
    if goContainsAny rt (gs "?/") then truncAtAny rt (gs "?/") ++ gs " - LIST"
    else rt ++ gs " - READ"
  else rt

/-- The `resourceType` computed by `Do` from the method and the trimmed URL:
the `apiVersionIndex > 0` branch resolves and (for GET) suffixes a token,
every other case falls back to the whole trimmed URL. -/
def resolveResourceType (method s : GoStr) : GoStr :=
  match findApiVersion (goSplit '/' s) with
  | some i => if 0 < i then addGetSuffix method (resolveToken (goSplit '/' s) i) else s
  | none => s

/-- `methodInfo` in `Do`: REST verb, a space, and the resource type. -/
def methodInfo (method s : GoStr) : GoStr := method ++ gs " " ++ resolveResourceType method s

/-! ## The URL model and `trimURL` -/

/-- The slice of Go's `url.URL` read by the middleware: scheme, host, escaped
path, and the parsed query as key/value pairs in order of appearance. -/
structure GoURL where
  scheme : GoStr
  host : GoStr
  path : GoStr
  query : List (GoStr × GoStr)

/-- Go `url.Values.Get`: the first value listed for `key`, or `""` if none. -/
def getFirstValue (q : List (GoStr × GoStr)) (key : GoStr) : GoStr :=
  match q.find? (fun kv => kv.1 = key) with
  | some kv => kv.2
  | none => []

/-- The characters Go's `url.QueryEscape` leaves unescaped: ASCII
alphanumerics and `-._~`. -/
def isUnreservedChar (c : Char) : Bool :=
  c.isAlphanum || c = '-' || c = '_' || c = '.' || c = '~'

/-- Go's `upperhex` table, indexed by a nibble. -/
def hexUpperDigits : GoStr := gs "0123456789ABCDEF"

/-- One hex digit of Go's percent-encoding. -/
def hexUpper (n : Nat) : Char := hexUpperDigits.getD n '0'

/-- The UTF-8 bytes of a character, as Go ranges over them when escaping. -/
def utf8Bytes (c : Char) : List Nat :=
  let n := c.toNat
  if n < 0x80 then [n]
  else if n < 0x800 then
    [0xC0 ||| (n >>> 6), 0x80 ||| (n &&& 0x3F)]
  else if n < 0x10000 then
    [0xE0 ||| (n >>> 12), 0x80 ||| ((n >>> 6) &&& 0x3F), 0x80 ||| (n &&& 0x3F)]
  else
    [0xF0 ||| (n >>> 18), 0x80 ||| ((n >>> 12) &&& 0x3F),
     0x80 ||| ((n >>> 6) &&& 0x3F), 0x80 ||| (n &&& 0x3F)]

/-- Go `url.QueryEscape` on one character: keep it, turn a space into `+`, or
percent-encode each UTF-8 byte with the `upperhex` table. -/
def queryEscapeChar (c : Char) : GoStr :=
  if isUnreservedChar c then [c]
  else if c = ' ' then ['+']
  else (utf8Bytes c).flatMap (fun b => ['%', hexUpper (b / 16), hexUpper (b % 16)])

/-- Go `url.QueryEscape` on a whole string. -/
def queryEscape (s : GoStr) : GoStr := s.flatMap queryEscapeChar

/-- The scheme/authority/path part of Go's `url.URL.String()` (no user info,
no opaque part, as in the middleware's URLs): `scheme:` when present, `//host`
when an authority is written, a `/` inserted before a rootless path that
follows a host, then the escaped path. -/
def urlBase (u : GoURL) : GoStr :=
  (if u.scheme ≠ [] then u.scheme ++ [':'] else []) ++
  (if (u.scheme ≠ [] ∨ u.host ≠ []) ∧ (u.host ≠ [] ∨ u.path ≠ []) then gs "//" ++ u.host
   else []) ++
  (if u.path ≠ [] ∧ u.path.headD '/' ≠ '/' ∧ u.host ≠ [] then '/' :: u.path else u.path)

/-- `trimURL` of `policy.go`: drop every query parameter except
`api-version`, re-set `api-version` to its first value (`""` when absent), and
re-encode.  `url.Values.Encode` sorts the single remaining key and
query-escapes its value, so the result is the base URL followed by
`?api-version=<escaped first value>`. -/
def trimURL (u : GoURL) : GoStr :=
  urlBase u ++ gs "?api-version=" ++ queryEscape (getFirstValue u.query apiVersionLit)

/-! ## The logging model: `LoggingPolicy.Do` and `LoggingRoundTripper.RoundTrip` -/

/-- Severity of a `slog` record. -/
inductive Severity where
  | info
  | error
  deriving DecidableEq

/-- A value attached to a `slog` attribute: the middleware passes strings and
machine integers. -/
inductive GoVal where
  | str : GoStr → GoVal
  | int : Int → GoVal
  deriving DecidableEq

/-- One record handed to the `slog` sink: severity, the attributes added by
`With` (base logger attributes first, in order), and the message. -/
structure LogEntry where
  severity : Severity
  attrs : List (GoStr × GoVal)
  msg : GoStr
  deriving DecidableEq

/-- The attribute keys of an entry, in order. -/
def entryKeys (e : LogEntry) : List GoStr := e.attrs.map Prod.fst

/-- Outcome of the wrapped transport call (`req.Next()` /
`Proxied.RoundTrip`): an HTTP status code plus status line, or a transport
error message. -/
inductive TransportResult where
  | success (statusCode : Int) (status : GoStr)
  | failure (errMsg : GoStr)
  deriving DecidableEq

/-- The static attributes `GetDefaultArmClientOptions` seeds the policy's
logger with. -/
def staticTags : List (GoStr × GoVal) :=
  [(gs "source", .str (gs "ApiAutoLog")),
   (gs "method_type", .str (gs "unary")),
   (gs "protocol", .str (gs "REST"))]

/-- `LoggingPolicy.Do`, with the transport already run (Go calls `req.Next()`
first and inspects the URL afterwards).  Inputs: the base attributes carried
by the held logger, the request method and raw URL string, the result of
`url.Parse` on that string, the transport outcome, and the measured latency.
Output: the entries written to the sink, and the value `Do` returns (`.error`
for a propagated error, `.ok` with status code and status line otherwise). -/
def policyDo (base : List (GoStr × GoVal)) (method rawURL : GoStr)
    (parsed : Except GoStr GoURL) (transport : TransportResult) (latency : Int) :
    List LogEntry × Except GoStr (Int × GoStr) :=
  match parsed with
  | .error parseErr =>
    ([{ severity := .error,
        attrs := base ++
          [(gs "component", .str (gs "client")),
           (gs "method", .str (gs "ERROR")),
           (gs "service", .str (gs "ERROR")),
           (gs "url", .str rawURL),
           (gs "error", .str parseErr)],
        msg := gs "Error parsing request URL: " ++ parseErr }],
     .error parseErr)
  | .ok parsedURL =>
    let trimmedURL := trimURL parsedURL
    let minfo := methodInfo method trimmedURL
    match transport with
    | .failure errMsg =>
      ([{ severity := .error,
          attrs := base ++
            [(gs "component", .str (gs "client")),
             (gs "method", .str minfo),
             (gs "service", .str parsedURL.host),
             (gs "url", .str trimmedURL),
             (gs "error", .str errMsg)],
          msg := gs "Error finishing request: " ++ errMsg }],
       .error errMsg)
    | .success statusCode status =>
      let logAttrs := base ++
        [(gs "code", .int statusCode),
         (gs "component", .str (gs "client")),
         (gs "time_ms", .int latency),
         (gs "method", .str minfo),
         (gs "service", .str parsedURL.host),
         (gs "url", .str trimmedURL)]
      if 200 ≤ statusCode ∧ statusCode < 300 then
        ([{ severity := .info, attrs := logAttrs, msg := gs "finished call" }],
         .ok (statusCode, status))
      else
        ([{ severity := .error,
            attrs := logAttrs ++ [(gs "error", .str status)],
            msg := gs "finished call" }],
         .ok (statusCode, status))

/-- Modelled from the spec: `logging.GetMethodInfo` is not part of the two
source files; per the spec the round-trip adapter "delegates to the same
classification rules" and "uses the URL path", so it is modelled as the shared
classifier applied to the request path. -/
def getMethodInfo (method urlPath : GoStr) : GoStr := methodInfo method urlPath

/-- `LoggingRoundTripper.RoundTrip`, with the proxied transport already run.
Inputs: the base attributes of the held logger, the request method, URL path
and host, the transport outcome, and the measured latency.  On transport error
it writes one Error entry with `"na"` sentinels for code and time; on any
transport success it writes one Info entry (no status check). -/
def roundTrip (base : List (GoStr × GoVal)) (method urlPath host : GoStr)
    (transport : TransportResult) (latency : Int) :
    List LogEntry × Except GoStr (Int × GoStr) :=
  let minfo := getMethodInfo method urlPath
  match transport with
  | .failure errMsg =>
    ([{ severity := .error,
        attrs := base ++
          [(gs "code", .str (gs "na")),
           (gs "component", .str (gs "client")),
           (gs "time_ms", .str (gs "na")),
           (gs "method", .str minfo),
           (gs "service", .str host),
           (gs "source", .str (gs "ApiAutoLog")),
           (gs "protocol", .str (gs "REST")),
           (gs "method_type", .str (gs "unary")),
           (gs "url", .str urlPath),
           (gs "error", .str errMsg)],
        msg := gs "error finishing call" }],
     .error errMsg)
  | .success statusCode status =>
    ([{ severity := .info,
        attrs := base ++
          [(gs "code", .int statusCode),
           (gs "component", .str (gs "client")),
           (gs "time_ms", .int latency),
           (gs "method", .str minfo),
           (gs "service", .str host),
           (gs "source", .str (gs "ApiAutoLog")),
           (gs "protocol", .str (gs "REST")),
           (gs "method_type", .str (gs "unary")),
           (gs "url", .str urlPath)],
        msg := gs "finished call" }],
     .ok (statusCode, status))

/-! ## The HTTP-to-gRPC status mapper -/

/-- The gRPC status codes produced by `ConvertHTTPStatusToGRPCError`. -/
inductive GRPCCode where
  | ok
  | invalidArgument
  | deadlineExceeded
  | unauthenticated
  | permissionDenied
  | notFound
  | aborted
  | resourceExhausted
  | internal
  | unimplemented
  | unavailable
  | unknown
  deriving DecidableEq

/-- `ConvertHTTPStatusToGRPCError` of `policy.go`, with Go's `http.Status*`
constants spelled as their numeric values. -/
def ConvertHTTPStatusToGRPCError (httpStatusCode : Int) : GRPCCode :=
  if httpStatusCode = 200 ∨ httpStatusCode = 201 ∨ httpStatusCode = 202 then .ok
  else if httpStatusCode = 400 then .invalidArgument
  else if httpStatusCode = 504 then .deadlineExceeded
  else if httpStatusCode = 401 then .unauthenticated
  else if httpStatusCode = 403 then .permissionDenied
  else if httpStatusCode = 404 then .notFound
  else if httpStatusCode = 409 then .aborted
  else if httpStatusCode = 429 then .resourceExhausted
  else if httpStatusCode = 500 then .internal
  else if httpStatusCode = 501 then .unimplemented
  else if httpStatusCode = 503 then .unavailable
  else .unknown

/-! ## Shared lemmas about the string model -/

theorem goContains_eq_true {s sub : GoStr} : goContains s sub = true ↔ sub <:+: s := by
  simp [goContains]

theorem goSplit_ne_nil (c : Char) (s : GoStr) : goSplit c s ≠ [] := by
  cases s with
  | nil => simp [goSplit]
  | cons x xs =>
    by_cases hx : x = c
    · simp [goSplit, hx]
    · rcases h : goSplit c xs with _ | ⟨y, ys⟩
      · simp [goSplit, hx, h]
      · simp [goSplit, hx, h]

theorem goSplit_of_not_mem {c : Char} {s : GoStr} (h : c ∉ s) : goSplit c s = [s] := by
  induction s with
  | nil => rfl
  | cons x xs ih =>
    have hx : ¬ x = c := by rintro rfl; exact h (List.mem_cons_self x xs)
    have hxs : c ∉ xs := fun hm => h (List.mem_cons_of_mem x hm)
    simp [goSplit, hx, ih hxs]

theorem goSplit_append_mem {c : Char} (s : GoStr) {t : GoStr} (h : c ∉ t) :
    ∃ seg ∈ goSplit c (s ++ t), t <:+ seg := by
  induction s with
  | nil => exact ⟨t, by simp [goSplit_of_not_mem h], List.suffix_refl t⟩
  | cons x xs ih =>
    obtain ⟨seg, hmem, hsuf⟩ := ih
    by_cases hx : x = c
    · refine ⟨seg, ?_, hsuf⟩
      have : goSplit c (x :: xs ++ t) = [] :: goSplit c (xs ++ t) := by
        simp [goSplit, hx]
      rw [this]
      exact List.mem_cons_of_mem [] hmem
    · rcases hsplit : goSplit c (xs ++ t) with _ | ⟨y, ys⟩
      · exact absurd hsplit (goSplit_ne_nil c _)
      · rw [hsplit] at hmem
        have hgoal : goSplit c (x :: xs ++ t) = (x :: y) :: ys := by
          simp [goSplit, hx, hsplit]
        rcases List.mem_cons.mp hmem with rfl | hmem2
        · exact ⟨x :: seg, by rw [hgoal]; exact List.mem_cons_self _ _,
            hsuf.trans (List.suffix_cons x seg)⟩
        · exact ⟨seg, by rw [hgoal]; exact List.mem_cons_of_mem _ hmem2, hsuf⟩

theorem goSplit_head_le (c : Char) (s : GoStr) :
    ∀ {y : GoStr} {ys : List GoStr}, goSplit c s = y :: ys → y <+: s := by
  induction s with
  | nil =>
    intro y ys h
    simp [goSplit] at h
    exact h.1 ▸ List.nil_prefix
  | cons x xs ih =>
    intro y ys h
    by_cases hx : x = c
    · simp [goSplit, hx] at h
      exact h.1 ▸ List.nil_prefix
    · rcases hsplit : goSplit c xs with _ | ⟨y2, ys2⟩
      · exact absurd hsplit (goSplit_ne_nil c xs)
      · simp [goSplit, hx, hsplit] at h
        exact h.1 ▸ List.cons_prefix_cons.mpr ⟨rfl, ih hsplit⟩

theorem goSplit_seg_le {c : Char} {s seg : GoStr} (h : seg ∈ goSplit c s) :
    seg <:+: s := by
  induction s with
  | nil =>
    simp [goSplit] at h
    subst h
    exact ⟨[], [], rfl⟩
  | cons x xs ih =>
    by_cases hx : x = c
    · rw [show goSplit c (x :: xs) = [] :: goSplit c xs by simp [goSplit, hx]] at h
      rcases List.mem_cons.mp h with rfl | h2
      · exact ⟨[], x :: xs, rfl⟩
      · exact List.infix_cons_iff.mpr (Or.inr (ih h2))
    · rcases hsplit : goSplit c xs with _ | ⟨y, ys⟩
      · exact absurd hsplit (goSplit_ne_nil c xs)
      · rw [show goSplit c (x :: xs) = (x :: y) :: ys by simp [goSplit, hx, hsplit]] at h
        rcases List.mem_cons.mp h with rfl | h2
        · exact (List.cons_prefix_cons.mpr ⟨rfl, goSplit_head_le c xs hsplit⟩).isInfix
        · exact List.infix_cons_iff.mpr
            (Or.inr (ih (by rw [hsplit]; exact List.mem_cons_of_mem y h2)))

theorem goSplit_length_eq (c : Char) (s : GoStr) :
    (goSplit c s).length = s.count c + 1 := by
  induction s with
  | nil => simp [goSplit]
  | cons x xs ih =>
    by_cases hx : x = c
    · rw [show goSplit c (x :: xs) = [] :: goSplit c xs by simp [goSplit, hx]]
      simp [List.count_cons, hx, ih]
    · rcases hsplit : goSplit c xs with _ | ⟨y, ys⟩
      · exact absurd hsplit (goSplit_ne_nil c xs)
      · rw [show goSplit c (x :: xs) = (x :: y) :: ys by simp [goSplit, hx, hsplit]]
        have hlen : (y :: ys).length = xs.count c + 1 := by rw [← hsplit]; exact ih
        simp [List.count_cons, hx] at hlen ⊢
        omega

theorem getD_mem_or {α : Type} (l : List α) (i : Nat) (d : α) :
    l.getD i d ∈ l ∨ l.getD i d = d := by
  rw [List.getD_eq_getD_get?]
  rcases h : l.get? i with _ | a
  · exact Or.inr rfl
  · exact Or.inl (by simpa using List.get?_mem h)

theorem hexUpper_mem (n : Nat) : hexUpper n ∈ hexUpperDigits := by
  rcases getD_mem_or hexUpperDigits n '0' with h | h
  · exact h
  · rw [hexUpper, h]; decide

theorem mem_queryEscapeChar {x c : Char} (h : x ∈ queryEscapeChar c) :
    (x = c ∧ isUnreservedChar c = true) ∨ x = '+' ∨ x = '%' ∨ x ∈ hexUpperDigits := by
  unfold queryEscapeChar at h
  by_cases h1 : isUnreservedChar c
  · rw [if_pos h1] at h
    simp at h
    exact Or.inl ⟨h, h1⟩
  · rw [if_neg h1] at h
    by_cases h2 : c = ' '
    · rw [if_pos h2] at h
      simp at h
      exact Or.inr (Or.inl h)
    · rw [if_neg h2, List.mem_flatMap] at h
      obtain ⟨b, -, hb⟩ := h
      rcases List.mem_cons.mp hb with rfl | hb2
      · exact Or.inr (Or.inr (Or.inl rfl))
      · rcases List.mem_cons.mp hb2 with rfl | hb3
        · exact Or.inr (Or.inr (Or.inr (hexUpper_mem _)))
        · rcases List.mem_cons.mp hb3 with rfl | hb4
          · exact Or.inr (Or.inr (Or.inr (hexUpper_mem _)))
          · cases hb4

theorem not_mem_queryEscape {d : Char} (h1 : isUnreservedChar d = false) (h2 : d ≠ '+')
    (h3 : d ≠ '%') (h4 : d ∉ hexUpperDigits) (v : GoStr) : d ∉ queryEscape v := by
  intro hmem
  rw [queryEscape, List.mem_flatMap] at hmem
  obtain ⟨c, -, hc⟩ := hmem
  rcases mem_queryEscapeChar hc with ⟨rfl, hu⟩ | rfl | rfl | hd
  · rw [h1] at hu; cases hu
  · exact h2 rfl
  · exact h3 rfl
  · exact h4 hd

theorem slash_not_mem_queryEscape (v : GoStr) : '/' ∉ queryEscape v :=
  not_mem_queryEscape (by decide) (by decide) (by decide) (by decide) v

theorem amp_not_mem_queryEscape (v : GoStr) : '&' ∉ queryEscape v :=
  not_mem_queryEscape (by decide) (by decide) (by decide) (by decide) v

theorem space_not_mem_queryEscape (v : GoStr) : ' ' ∉ queryEscape v :=
  not_mem_queryEscape (by decide) (by decide) (by decide) (by decide) v

theorem dropWhile_append_all {α : Type} {p : α → Bool} {a b : List α}
    (h : ∀ x ∈ a, p x = true) : (a ++ b).dropWhile p = b.dropWhile p := by
  induction a with
  | nil => rfl
  | cons x xs ih =>
    have hx := h x (List.mem_cons_self x xs)
    simp only [List.cons_append, List.dropWhile_cons, hx, if_true]
    exact ih (fun y hy => h y (List.mem_cons_of_mem x hy))

theorem findApiVersion_isSome_of_mem {segs : List GoStr} {seg : GoStr}
    (hmem : seg ∈ segs) (hseg : goContains seg apiVersionLit = true) :
    ∃ i, findApiVersion segs = some i := by
  induction segs with
  | nil => cases hmem
  | cons a rest ih =>
    by_cases ha : goContains a apiVersionLit
    · exact ⟨0, by simp [findApiVersion, ha]⟩
    · rcases List.mem_cons.mp hmem with rfl | h2
      · exact absurd hseg ha
      · obtain ⟨i, hi⟩ := ih h2
        exact ⟨i + 1, by simp [findApiVersion, ha, hi]⟩

/-- The suffix `?api-version=<escaped value>` that `trimURL` appends is free of
`/`, so it stays inside the final segment of the split. -/
theorem trim_query_no_slash (u : GoURL) :
    '/' ∉ gs "?api-version=" ++ queryEscape (getFirstValue u.query apiVersionLit) := by
  intro hmem
  rcases List.mem_append.mp hmem with h | h
  · revert h; decide
  · exact slash_not_mem_queryEscape _ h

/-- Some segment of the split trimmed URL contains `"api-version"`. -/
theorem trim_seg_exists (u : GoURL) :
    ∃ seg ∈ goSplit '/' (trimURL u), goContains seg apiVersionLit = true := by
  have hassoc : trimURL u =
      urlBase u ++ (gs "?api-version=" ++ queryEscape (getFirstValue u.query apiVersionLit)) := by
    rw [trimURL, List.append_assoc]
  obtain ⟨seg, hmem, hsuf⟩ := goSplit_append_mem (urlBase u) (trim_query_no_slash u)
  refine ⟨seg, by rw [hassoc]; exact hmem, ?_⟩
  rw [goContains_eq_true]
  have h1 : apiVersionLit <:+: gs "?api-version=" := by decide
  have h2 : gs "?api-version=" <:+:
      gs "?api-version=" ++ queryEscape (getFirstValue u.query apiVersionLit) :=
    (List.prefix_append _ _).isInfix
  exact (h1.trans h2).trans hsuf.isInfix

/-- The trimmed URL always contains the substring `"api-version"`. -/
theorem goContains_trim (u : GoURL) : goContains (trimURL u) apiVersionLit = true := by
  rw [goContains_eq_true, trimURL]
  have h1 : apiVersionLit <:+: gs "?api-version=" := by decide
  exact h1.trans (List.infix_append _ _ _)

/-- `Do` never takes the `apiVersionIndex = -1` fallback on a trimmed URL. -/
theorem findApiVersion_trim_isSome (u : GoURL) :
    ∃ i, findApiVersion (goSplit '/' (trimURL u)) = some i := by
  obtain ⟨seg, hmem, hc⟩ := trim_seg_exists u
  exact findApiVersion_isSome_of_mem hmem hc

/-! ## Concrete example URLs -/

/-- The storage-account URL of the repository's examples, ARM camel case. -/
def storageURL : GoURL :=
  ⟨gs "https", gs "management.azure.com",
   gs "/subscriptions/s/resourceGroups/r/providers/Microsoft.Storage/storageAccounts/acct",
   [(gs "api-version", gs "v")]⟩

/-- A URL whose two final path segments are plain unrecognized names. -/
def fooBarURL : GoURL := ⟨gs "https", gs "h", gs "/foo/bar", [(gs "api-version", gs "v")]⟩

/-- A single-segment relative URL, as produced by Go's `url.Parse "foo"`. -/
def bareURL : GoURL := ⟨[], [], gs "foo", [(gs "a", gs "b")]⟩

/-- A URL whose path holds an `api-version` marker segment without any query
character in it. -/
def markerURL : GoURL := ⟨gs "https", gs "host", gs "/api-version-x/foo", []⟩

/-- A URL with several query parameters besides `api-version`. -/
def multiQueryURL : GoURL :=
  ⟨gs "https", gs "h", gs "/a/storageAccounts/n",
   [(gs "z", gs "1"), (gs "api-version", gs "2024-01-01"), (gs "f", gs "x")]⟩

/-! ## C9: the status mapper -/

/-- C9: `ConvertHTTPStatusToGRPCError` realizes the documented table — 200,
201, 202 map to OK, 400 to InvalidArgument, 504 to DeadlineExceeded, 401 to
Unauthenticated, 403 to PermissionDenied, 404 to NotFound, 409 to Aborted,
429 to ResourceExhausted, 500 to Internal, 501 to Unimplemented, 503 to
Unavailable — and every other integer maps to Unknown. -/
theorem convert_status_table :
    (ConvertHTTPStatusToGRPCError 200 = .ok ∧
     ConvertHTTPStatusToGRPCError 201 = .ok ∧
     ConvertHTTPStatusToGRPCError 202 = .ok ∧
     ConvertHTTPStatusToGRPCError 400 = .invalidArgument ∧
     ConvertHTTPStatusToGRPCError 504 = .deadlineExceeded ∧
     ConvertHTTPStatusToGRPCError 401 = .unauthenticated ∧
     ConvertHTTPStatusToGRPCError 403 = .permissionDenied ∧
     ConvertHTTPStatusToGRPCError 404 = .notFound ∧
     ConvertHTTPStatusToGRPCError 409 = .aborted ∧
     ConvertHTTPStatusToGRPCError 429 = .resourceExhausted ∧
     ConvertHTTPStatusToGRPCError 500 = .internal ∧
     ConvertHTTPStatusToGRPCError 501 = .unimplemented ∧
     ConvertHTTPStatusToGRPCError 503 = .unavailable) ∧
    ∀ n : Int, n ≠ 200 → n ≠ 201 → n ≠ 202 → n ≠ 400 → n ≠ 504 → n ≠ 401 → n ≠ 403 →
      n ≠ 404 → n ≠ 409 → n ≠ 429 → n ≠ 500 → n ≠ 501 → n ≠ 503 →
      ConvertHTTPStatusToGRPCError n = .unknown := by
  constructor
  · refine ⟨by decide, by decide, by decide, by decide, by decide, by decide, by decide,
      by decide, by decide, by decide, by decide, by decide, by decide⟩
  · intro n h200 h201 h202 h400 h504 h401 h403 h404 h409 h429 h500 h501 h503
    simp [ConvertHTTPStatusToGRPCError, h200, h201, h202, h400, h504, h401, h403, h404,
      h409, h429, h500, h501, h503]

/-- Witness for C9 at the unmapped code 599. -/
theorem convert_status_table_witness : ConvertHTTPStatusToGRPCError 599 = .unknown :=
  convert_status_table.2 599 (by decide) (by decide) (by decide) (by decide) (by decide)
    (by decide) (by decide) (by decide) (by decide) (by decide) (by decide) (by decide)
    (by decide)

/-! ## C10: trimming always inserts api-version -/

/-- C10: `trimURL` inserts an `api-version` parameter (empty value when the
input query has none), so the trimmed URL contains the substring
`api-version`, the segment scan always finds an index, and at any positive
index the classifier takes the token branch — the whole-URL fallback can only
trigger when that index is 0. -/
theorem trim_inserts_api_version (u : GoURL) :
    goContains (trimURL u) apiVersionLit = true ∧
    (∃ i, findApiVersion (goSplit '/' (trimURL u)) = some i) ∧
    (∀ method i, findApiVersion (goSplit '/' (trimURL u)) = some i → 0 < i →
      resolveResourceType method (trimURL u) =
        addGetSuffix method (resolveToken (goSplit '/' (trimURL u)) i)) ∧
    (getFirstValue u.query apiVersionLit = [] → trimURL u = urlBase u ++ gs "?api-version=") := by
  refine ⟨goContains_trim u, findApiVersion_trim_isSome u, ?_, ?_⟩
  · intro method i h hi
    simp only [resolveResourceType, h, if_pos hi]
  · intro h
    rw [trimURL, h]
    simp [queryEscape]

/-- Witness for C10 at the marker URL, whose api-version segment is at 3. -/
theorem trim_inserts_api_version_witness :
    goContains (trimURL markerURL) apiVersionLit = true ∧
    resolveResourceType (gs "GET") (trimURL markerURL) =
      addGetSuffix (gs "GET") (resolveToken (goSplit '/' (trimURL markerURL)) 3) ∧
    trimURL markerURL = urlBase markerURL ++ gs "?api-version=" :=
  ⟨(trim_inserts_api_version markerURL).1,
   (trim_inserts_api_version markerURL).2.2.1 (gs "GET") 3 (by decide) (by decide),
   (trim_inserts_api_version markerURL).2.2.2 (by decide)⟩

/-! ## C2: the whole-URL fallback -/

/-- C2 counterexample: for the single-segment URL `foo`, an api-version
segment exists (at index 0) and still the token is the full trimmed URL, so
the no-api-version fallback is not the only whole-URL case. -/
theorem whole_url_at_index_zero :
    findApiVersion (goSplit '/' (trimURL bareURL)) = some 0 ∧
    ((goSplit '/' (trimURL bareURL)).any (fun seg => goContains seg apiVersionLit)) = true ∧
    resolveResourceType (gs "POST") (trimURL bareURL) = trimURL bareURL ∧
    methodInfo (gs "POST") (trimURL bareURL) = gs "POST foo?api-version=" := by
  exact ⟨by decide, by decide, by decide, by decide⟩

/-- C2 amended: with no api-version segment the label is the verb plus the
whole string; a trimmed URL always has such a segment; and the whole-URL
fallback also fires when the segment is at index 0. -/
theorem fallback_label :
    (∀ method s, findApiVersion (goSplit '/' s) = none →
      methodInfo method s = method ++ gs " " ++ s) ∧
    (∀ u : GoURL, findApiVersion (goSplit '/' (trimURL u)) ≠ none) ∧
    (∀ method (u : GoURL), findApiVersion (goSplit '/' (trimURL u)) = some 0 →
      methodInfo method (trimURL u) = method ++ gs " " ++ trimURL u) := by
  refine ⟨?_, ?_, ?_⟩
  · intro method s h
    simp only [methodInfo, resolveResourceType, h]
  · intro u
    obtain ⟨i, hi⟩ := findApiVersion_trim_isSome u
    simp [hi]
  · intro method u h
    simp only [methodInfo, resolveResourceType, h, Nat.lt_irrefl, if_false]

/-- Witness for the amended C2 at concrete inputs. -/
theorem fallback_label_witness :
    methodInfo (gs "POST") (gs "/a/b") = gs "POST" ++ gs " " ++ gs "/a/b" ∧
    findApiVersion (goSplit '/' (trimURL bareURL)) ≠ none ∧
    methodInfo (gs "POST") (trimURL bareURL) = gs "POST" ++ gs " " ++ trimURL bareURL :=
  ⟨fallback_label.1 (gs "POST") (gs "/a/b") (by decide),
   fallback_label.2.1 bareURL,
   fallback_label.2.2 (gs "POST") bareURL (by decide)⟩

/-! ## C1: resource-type token resolution -/

/-- C1 counterexample: on `https://h/foo/bar?api-version=v` the api-version
segment is at index 4, the preceding segment is `foo`, none of the claim's
lower-case vocabulary entries occur in it, and yet the token is the raw
segment at index 4 itself, not the segment at index 3. -/
theorem token_not_from_preceding_segment :
    findApiVersion (goSplit '/' (trimURL fooBarURL)) = some 4 ∧
    (goSplit '/' (trimURL fooBarURL)).getD 3 [] = gs "foo" ∧
    ([gs "resourcegroups", gs "storageaccounts", gs "operationresults",
      gs "asyncoperations"].all (fun rt => !goContains (gs "foo") rt)) = true ∧
    resolveToken (goSplit '/' (trimURL fooBarURL)) 4 = gs "bar?api-version=v" ∧
    gs "bar?api-version=v" ≠ gs "foo" ∧
    methodInfo (gs "POST") (trimURL fooBarURL) = gs "POST bar?api-version=v" := by
  exact ⟨by decide, by decide, by decide, by decide, by decide, by decide⟩

/-- C1 amended: at `apiVersionIndex = i > 0`, if the segment at `i-1`
contains an entry of the code's vocabulary (`resourcegroups`,
`storageAccounts` — mixed case — `operationresults`, `asyncoperations`) the
token is the first such entry verbatim, with no case normalization;
otherwise the token is the raw segment at index `i` itself; the label is the
method, a space, and the GET-suffixed token. -/
theorem token_resolution (u : GoURL) (i : Nat)
    (h : findApiVersion (goSplit '/' (trimURL u)) = some i) (hi : 0 < i) :
    ((∃ rt ∈ resourceTypes,
        goContains ((goSplit '/' (trimURL u)).getD (i - 1) []) rt = true) →
      ∃ rt ∈ resourceTypes,
        goContains ((goSplit '/' (trimURL u)).getD (i - 1) []) rt = true ∧
        resolveToken (goSplit '/' (trimURL u)) i = rt) ∧
    ((∀ rt ∈ resourceTypes,
        goContains ((goSplit '/' (trimURL u)).getD (i - 1) []) rt = false) →
      resolveToken (goSplit '/' (trimURL u)) i = (goSplit '/' (trimURL u)).getD i []) ∧
    (∀ method, methodInfo method (trimURL u) =
      method ++ gs " " ++ addGetSuffix method (resolveToken (goSplit '/' (trimURL u)) i)) := by
  refine ⟨?_, ?_, ?_⟩
  · intro hexists
    rcases hfind : resourceTypes.find?
        (fun rt => goContains ((goSplit '/' (trimURL u)).getD (i - 1) []) rt) with _ | rt
    · obtain ⟨rt, hmem, hc⟩ := hexists
      have := List.find?_eq_none.mp hfind rt hmem
      exact absurd hc this
    · exact ⟨rt, List.mem_of_find?_eq_some hfind, List.find?_some hfind,
        by rw [resolveToken, hfind]⟩
  · intro hall
    rcases hfind : resourceTypes.find?
        (fun rt => goContains ((goSplit '/' (trimURL u)).getD (i - 1) []) rt) with _ | rt
    · rw [resolveToken, hfind]
    · have := List.find?_some hfind
      rw [hall rt (List.mem_of_find?_eq_some hfind)] at this
      cases this
  · intro method
    rw [methodInfo]
    simp only [resolveResourceType, h, if_pos hi]

/-- Witness for the amended C1 at the storage-account URL (index 10). -/
theorem token_resolution_witness :
    resolveToken (goSplit '/' (trimURL storageURL)) 10 ∈ resourceTypes ∧
    methodInfo (gs "GET") (trimURL storageURL) =
      gs "GET" ++ gs " " ++
        addGetSuffix (gs "GET") (resolveToken (goSplit '/' (trimURL storageURL)) 10) := by
  refine ⟨?_, (token_resolution storageURL 10 (by decide) (by decide)).2.2 (gs "GET")⟩
  obtain ⟨rt, hmem, -, heq⟩ := (token_resolution storageURL 10 (by decide) (by decide)).1
    ⟨gs "storageAccounts", by decide, by decide⟩
  rw [heq]
  exact hmem

/-! ## C3: query trimming keeps one parameter -/

/-- The query string of a URL string: everything after the first `?`. -/
def queryPart (s : GoStr) : GoStr := (s.dropWhile (fun c => c != '?')).drop 1

/-- The number of `&`-separated parameters of a query string. -/
def countParams (q : GoStr) : Nat := (goSplit '&' q).length

/-- The key of the first parameter of a query string. -/
def paramKey (q : GoStr) : GoStr := q.takeWhile (fun c => c != '=')

/-- C3: for a URL with several query parameters, at most one of them
`api-version`, the trimmed URL carries exactly one query parameter, keyed
`api-version`, and classification agrees with the same URL carrying only the
`api-version` parameter. -/
theorem trim_single_param (u : GoURL)
    (_hmulti : 2 ≤ u.query.length)
    (_hone : u.query.countP (fun kv => kv.1 = apiVersionLit) ≤ 1)
    (hbase : '?' ∉ urlBase u) :
    queryPart (trimURL u) =
      gs "api-version=" ++ queryEscape (getFirstValue u.query apiVersionLit) ∧
    countParams (queryPart (trimURL u)) = 1 ∧
    paramKey (queryPart (trimURL u)) = gs "api-version" ∧
    ∀ method, methodInfo method (trimURL u) =
      methodInfo method (trimURL ⟨u.scheme, u.host, u.path,
        [(apiVersionLit, getFirstValue u.query apiVersionLit)]⟩) := by
  have hquery : queryPart (trimURL u) =
      gs "api-version=" ++ queryEscape (getFirstValue u.query apiVersionLit) := by
    rw [queryPart, trimURL]
    have hshape : urlBase u ++ gs "?api-version=" ++
        queryEscape (getFirstValue u.query apiVersionLit) =
        urlBase u ++ ('?' :: (gs "api-version=" ++
          queryEscape (getFirstValue u.query apiVersionLit))) := by
      rw [List.append_assoc]
      rfl
    rw [hshape]
    rw [dropWhile_append_all (p := fun c => c != '?') (fun x hx => by
      have hne : x ≠ '?' := fun he => hbase (he ▸ hx)
      simp [hne])]
    simp [List.dropWhile_cons]
  refine ⟨hquery, ?_, ?_, ?_⟩
  · rw [hquery, countParams, goSplit_length_eq]
    have : '&' ∉ gs "api-version=" ++ queryEscape (getFirstValue u.query apiVersionLit) := by
      intro hmem
      rcases List.mem_append.mp hmem with h | h
      · revert h; decide
      · exact amp_not_mem_queryEscape _ h
    rw [List.count_eq_zero.mpr this]
  · rw [hquery]
    rfl
  · intro method
    have : trimURL u = trimURL ⟨u.scheme, u.host, u.path,
        [(apiVersionLit, getFirstValue u.query apiVersionLit)]⟩ := by
      rw [trimURL, trimURL]
      simp [getFirstValue, urlBase]
    rw [this]

/-- Witness for C3 at the multi-parameter URL. -/
theorem trim_single_param_witness :
    countParams (queryPart (trimURL multiQueryURL)) = 1 ∧
    paramKey (queryPart (trimURL multiQueryURL)) = gs "api-version" ∧
    methodInfo (gs "GET") (trimURL multiQueryURL) =
      methodInfo (gs "GET") (trimURL ⟨multiQueryURL.scheme, multiQueryURL.host,
        multiQueryURL.path, [(apiVersionLit, getFirstValue multiQueryURL.query apiVersionLit)]⟩) :=
  ⟨(trim_single_param multiQueryURL (by decide) (by decide) (by decide)).2.1,
   (trim_single_param multiQueryURL (by decide) (by decide) (by decide)).2.2.1,
   (trim_single_param multiQueryURL (by decide) (by decide) (by decide)).2.2.2 (gs "GET")⟩

/-! ## C4 and C5: the GET suffixing rules -/

/-- No vocabulary entry contains a space. -/
theorem resourceTypes_no_space : ∀ rt ∈ resourceTypes, ' ' ∉ rt := by decide

/-- For a non-GET method on a space-free URL string, the resolved resource
type contains no space. -/
theorem space_not_mem_resolve {method s : GoStr} (hm : method ≠ gs "GET")
    (hs : ' ' ∉ s) : ' ' ∉ resolveResourceType method s := by
  rw [resolveResourceType]
  rcases h : findApiVersion (goSplit '/' s) with _ | i
  · exact hs
  · show ' ' ∉ if 0 < i then addGetSuffix method (resolveToken (goSplit '/' s) i) else s
    by_cases hi : 0 < i
    · rw [if_pos hi, addGetSuffix, if_neg hm, resolveToken]
      rcases hfind : resourceTypes.find?
          (fun rt => goContains ((goSplit '/' s).getD (i - 1) []) rt) with _ | rt
      · rcases getD_mem_or (goSplit '/' s) i [] with hmem | hnil
        · exact fun hsp => hs ((goSplit_seg_le hmem).subset hsp)
        · rw [hnil]; simp
      · exact resourceTypes_no_space rt (List.mem_of_find?_eq_some hfind)
    · rw [if_neg hi]; exact hs

/-- The label of a non-GET call on a space-free URL has exactly one space. -/
theorem methodInfo_one_space {method s : GoStr} (hm : method ≠ gs "GET")
    (hms : ' ' ∉ method) (hs : ' ' ∉ s) : (methodInfo method s).count ' ' = 1 := by
  rw [methodInfo, List.count_append, List.count_append,
    List.count_eq_zero.mpr hms, List.count_eq_zero.mpr (space_not_mem_resolve hm hs)]
  decide

/-- C4: at a positive api-version index, a GET label is the token truncated
at the first `?` or `/` plus ` - LIST` when such a character occurs in the
token, and the token plus ` - READ` otherwise; non-GET labels on space-free
methods and URLs never end in either suffix. -/
theorem get_suffix_rule :
    (∀ s i, findApiVersion (goSplit '/' s) = some i → 0 < i →
      (goContainsAny (resolveToken (goSplit '/' s) i) (gs "?/") = true →
        resolveResourceType (gs "GET") s =
          truncAtAny (resolveToken (goSplit '/' s) i) (gs "?/") ++ gs " - LIST") ∧
      (goContainsAny (resolveToken (goSplit '/' s) i) (gs "?/") = false →
        resolveResourceType (gs "GET") s = resolveToken (goSplit '/' s) i ++ gs " - READ")) ∧
    (∀ method s, method ≠ gs "GET" → ' ' ∉ method → ' ' ∉ s →
      ¬ (gs " - LIST" <:+ methodInfo method s) ∧
      ¬ (gs " - READ" <:+ methodInfo method s)) := by
  constructor
  · intro s i h hi
    constructor
    · intro hany
      simp only [resolveResourceType, h, if_pos hi, addGetSuffix, hany]
      simp
    · intro hany
      simp only [resolveResourceType, h, if_pos hi, addGetSuffix, hany]
      simp
  · intro method s hm hms hs
    have hone := methodInfo_one_space hm hms hs
    constructor
    · intro hsuf
      have hle := hsuf.sublist.count_le ' '
      rw [hone] at hle
      have : (gs " - LIST").count ' ' = 2 := by decide
      omega
    · intro hsuf
      have hle := hsuf.sublist.count_le ' '
      rw [hone] at hle
      have : (gs " - READ").count ' ' = 2 := by decide
      omega

/-- Witness for C4: READ at the storage URL, LIST at the foo/bar URL, no
suffix for POST. -/
theorem get_suffix_rule_witness :
    resolveResourceType (gs "GET") (trimURL storageURL) =
      resolveToken (goSplit '/' (trimURL storageURL)) 10 ++ gs " - READ" ∧
    resolveResourceType (gs "GET") (trimURL fooBarURL) =
      truncAtAny (resolveToken (goSplit '/' (trimURL fooBarURL)) 4) (gs "?/") ++ gs " - LIST" ∧
    ¬ (gs " - LIST" <:+ methodInfo (gs "POST") (trimURL storageURL)) :=
  ⟨(get_suffix_rule.1 (trimURL storageURL) 10 (by decide) (by decide)).2 (by decide),
   (get_suffix_rule.1 (trimURL fooBarURL) 4 (by decide) (by decide)).1 (by decide),
   (get_suffix_rule.2 (gs "POST") (trimURL storageURL) (by decide) (by decide)
      (by decide)).1⟩

/-- C5 counterexample: on `https://host/api-version-x/foo` the token-bearing
segment `api-version-x` contains no `/` or `?`, yet the GET label ends in
` - READ`, not ` - LIST`. -/
theorem read_when_no_query_char :
    findApiVersion (goSplit '/' (trimURL markerURL)) = some 3 ∧
    resolveToken (goSplit '/' (trimURL markerURL)) 3 = gs "api-version-x" ∧
    goContainsAny (gs "api-version-x") (gs "?/") = false ∧
    methodInfo (gs "GET") (trimURL markerURL) = gs "GET api-version-x - READ" ∧
    ¬ (gs " - LIST" <:+ methodInfo (gs "GET") (trimURL markerURL)) := by
  exact ⟨by decide, by decide, by decide, by decide, by decide⟩

/-- C5 amended: for GET at a positive api-version index, a token free of `/`
and `?` yields a label ending in ` - READ`; a token containing one is
truncated at the first such character and the label ends in ` - LIST`. -/
theorem get_list_read_ends (s : GoStr) (i : Nat)
    (h : findApiVersion (goSplit '/' s) = some i) (hi : 0 < i) :
    (goContainsAny (resolveToken (goSplit '/' s) i) (gs "?/") = false →
      gs " - READ" <:+ methodInfo (gs "GET") s) ∧
    (goContainsAny (resolveToken (goSplit '/' s) i) (gs "?/") = true →
      methodInfo (gs "GET") s =
        gs "GET" ++ gs " " ++
          (truncAtAny (resolveToken (goSplit '/' s) i) (gs "?/") ++ gs " - LIST") ∧
      gs " - LIST" <:+ methodInfo (gs "GET") s) := by
  constructor
  · intro hany
    have hlabel : methodInfo (gs "GET") s =
        gs "GET" ++ gs " " ++ (resolveToken (goSplit '/' s) i ++ gs " - READ") := by
      rw [methodInfo]
      simp only [resolveResourceType, h, if_pos hi, addGetSuffix, hany]
      simp
    rw [hlabel, ← List.append_assoc]
    exact List.suffix_append _ _
  · intro hany
    have hlabel : methodInfo (gs "GET") s =
        gs "GET" ++ gs " " ++
          (truncAtAny (resolveToken (goSplit '/' s) i) (gs "?/") ++ gs " - LIST") := by
      rw [methodInfo]
      simp only [resolveResourceType, h, if_pos hi, addGetSuffix, hany]
      simp
    refine ⟨hlabel, ?_⟩
    rw [hlabel, ← List.append_assoc]
    exact List.suffix_append _ _

/-- Witness for the amended C5: READ at the storage URL, LIST at the foo/bar
URL. -/
theorem get_list_read_ends_witness :
    gs " - READ" <:+ methodInfo (gs "GET") (trimURL storageURL) ∧
    gs " - LIST" <:+ methodInfo (gs "GET") (trimURL fooBarURL) :=
  ⟨(get_list_read_ends (trimURL storageURL) 10 (by decide) (by decide)).1 (by decide),
   ((get_list_read_ends (trimURL fooBarURL) 4 (by decide) (by decide)).2 (by decide)).2⟩

/-! ## C6, C7, C8: the two adapters' log entries -/

/-- Keys of the policy's 2xx success entry when its logger is seeded with the
static tags. -/
def policySuccess2xxKeys : List GoStr :=
  [gs "source", gs "method_type", gs "protocol", gs "code", gs "component", gs "time_ms",
   gs "method", gs "service", gs "url"]

/-- Keys of the round-tripper's success entry. -/
def roundTripSuccessKeys : List GoStr :=
  [gs "code", gs "component", gs "time_ms", gs "method", gs "service", gs "source",
   gs "protocol", gs "method_type", gs "url"]

/-- Keys of the policy's error entries (transport failure and parse failure
alike) when its logger is seeded with the static tags. -/
def policyFailureKeys : List GoStr :=
  [gs "source", gs "method_type", gs "protocol", gs "component", gs "method", gs "service",
   gs "url", gs "error"]

/-- Keys of the round-tripper's transport-failure entry. -/
def roundTripFailureKeys : List GoStr :=
  [gs "code", gs "component", gs "time_ms", gs "method", gs "service", gs "source",
   gs "protocol", gs "method_type", gs "url", gs "error"]

/-- C6 counterexample: the round-tripper logs severity Info for a successful
transport exchange that returned status 500. -/
theorem roundtrip_info_on_500 :
    ((roundTrip [] (gs "GET") (gs "/a/b") (gs "h")
        (.success 500 (gs "500 Internal Server Error")) 7).1.map LogEntry.severity) =
      [Severity.info] ∧
    ¬ ((200 : Int) ≤ 500 ∧ (500 : Int) < 300) := by
  exact ⟨rfl, by omega⟩

/-- C6 amended: each adapter writes exactly one entry per call; the policy's
severity on transport success is Info exactly for 2xx status codes, with the
status line as the error field otherwise; the round-tripper logs Info on
every transport success regardless of status. -/
theorem one_entry_per_call :
    (∀ base method rawURL parsed transport latency,
      (policyDo base method rawURL parsed transport latency).1.length = 1) ∧
    (∀ base method urlPath host transport latency,
      (roundTrip base method urlPath host transport latency).1.length = 1) ∧
    (∀ base method rawURL (u : GoURL) code status latency,
      ((policyDo base method rawURL (.ok u) (.success code status) latency).1.map
        LogEntry.severity) =
        [if 200 ≤ code ∧ code < 300 then Severity.info else Severity.error]) ∧
    (∀ base method rawURL (u : GoURL) code status latency,
      ¬ (200 ≤ code ∧ code < 300) →
      ∃ e, (policyDo base method rawURL (.ok u) (.success code status) latency).1 = [e] ∧
        e.severity = .error ∧ (gs "error", GoVal.str status) ∈ e.attrs) ∧
    (∀ base method urlPath host code status latency,
      ((roundTrip base method urlPath host (.success code status) latency).1.map
        LogEntry.severity) = [Severity.info]) := by
  refine ⟨?_, ?_, ?_, ?_, ?_⟩
  · intro base method rawURL parsed transport latency
    rcases parsed with perr | u
    · rfl
    · rcases transport with ⟨code, status⟩ | emsg
      · by_cases h2 : 200 ≤ code ∧ code < 300
        · simp [policyDo, h2]
        · simp [policyDo, h2]
      · rfl
  · intro base method urlPath host transport latency
    rcases transport with ⟨code, status⟩ | emsg <;> rfl
  · intro base method rawURL u code status latency
    by_cases h2 : 200 ≤ code ∧ code < 300
    · simp [policyDo, h2]
    · simp [policyDo, h2]
  · intro base method rawURL u code status latency h2
    have hlist : (policyDo base method rawURL (.ok u) (.success code status) latency).1 =
        [{ severity := .error,
           attrs := (base ++
             [(gs "code", GoVal.int code), (gs "component", GoVal.str (gs "client")),
              (gs "time_ms", GoVal.int latency),
              (gs "method", GoVal.str (methodInfo method (trimURL u))),
              (gs "service", GoVal.str u.host),
              (gs "url", GoVal.str (trimURL u))]) ++ [(gs "error", GoVal.str status)],
           msg := gs "finished call" }] := by
      simp [policyDo, h2]
    exact ⟨_, hlist, rfl, by simp⟩
  · intro base method urlPath host code status latency
    rfl

/-- Witness for the amended C6 at a concrete non-2xx call. -/
theorem one_entry_per_call_witness :
    (policyDo staticTags (gs "GET") (gs "u") (.ok bareURL)
      (.success 500 (gs "500 ISE")) 3).1.length = 1 ∧
    ((policyDo staticTags (gs "GET") (gs "u") (.ok bareURL)
        (.success 500 (gs "500 ISE")) 3).1.map LogEntry.severity) = [Severity.error] ∧
    ((roundTrip [] (gs "GET") (gs "p") (gs "h")
        (.success 204 (gs "204 No Content")) 2).1.map LogEntry.severity) = [Severity.info] := by
  refine ⟨one_entry_per_call.1 staticTags (gs "GET") (gs "u") (.ok bareURL)
      (.success 500 (gs "500 ISE")) 3, ?_,
    one_entry_per_call.2.2.2.2 [] (gs "GET") (gs "p") (gs "h") 204 (gs "204 No Content") 2⟩
  obtain ⟨e, he, hsev, -⟩ := one_entry_per_call.2.2.2.1 staticTags (gs "GET") (gs "u")
    bareURL 500 (gs "500 ISE") 3 (by decide)
  rw [he]
  simp [hsev]

/-- C7 counterexample: on the same failing transport call the two adapters
write different key sets — the round-tripper has `code` and `time_ms`
(sentinel `"na"`), the policy entry does not. -/
theorem shape_divergence_on_error :
    ((policyDo staticTags (gs "GET") (gs "u") (.ok bareURL) (.failure (gs "boom")) 1).1.map
      entryKeys) = [policyFailureKeys] ∧
    ((roundTrip [] (gs "GET") (gs "foo") (gs "h") (.failure (gs "boom")) 1).1.map
      entryKeys) = [roundTripFailureKeys] ∧
    gs "code" ∈ roundTripFailureKeys ∧ gs "code" ∉ policyFailureKeys ∧
    gs "time_ms" ∈ roundTripFailureKeys ∧ gs "time_ms" ∉ policyFailureKeys := by
  exact ⟨rfl, rfl, by decide, by decide, by decide, by decide⟩

/-- C7 amended: on 2xx successes the two adapters produce the same key set
(the policy seeded with the static tags, in a different order); on transport
errors their key sets differ — the round-tripper carries sentinel `code` and
`time_ms` keys that the policy entry omits. -/
theorem entry_shape_comparison :
    (∀ method rawURL (u : GoURL) urlPath code status l1 l2, 200 ≤ code ∧ code < 300 →
      (policyDo staticTags method rawURL (.ok u) (.success code status) l1).1.map entryKeys
        = [policySuccess2xxKeys] ∧
      (roundTrip [] method urlPath u.host (.success code status) l2).1.map entryKeys
        = [roundTripSuccessKeys] ∧
      (∀ k, k ∈ policySuccess2xxKeys ↔ k ∈ roundTripSuccessKeys)) ∧
    (∀ method rawURL (u : GoURL) urlPath host err l1 l2,
      (policyDo staticTags method rawURL (.ok u) (.failure err) l1).1.map entryKeys
        = [policyFailureKeys] ∧
      (roundTrip [] method urlPath host (.failure err) l2).1.map entryKeys
        = [roundTripFailureKeys] ∧
      gs "code" ∈ roundTripFailureKeys ∧ gs "code" ∉ policyFailureKeys ∧
      gs "time_ms" ∈ roundTripFailureKeys ∧ gs "time_ms" ∉ policyFailureKeys) := by
  have hsub1 : policySuccess2xxKeys ⊆ roundTripSuccessKeys := by decide
  have hsub2 : roundTripSuccessKeys ⊆ policySuccess2xxKeys := by decide
  constructor
  · intro method rawURL u urlPath code status l1 l2 h2
    refine ⟨?_, rfl, fun k => ⟨fun hk => hsub1 hk, fun hk => hsub2 hk⟩⟩
    simp [policyDo, h2, entryKeys, staticTags, policySuccess2xxKeys]
  · intro method rawURL u urlPath host err l1 l2
    exact ⟨rfl, rfl, by decide, by decide, by decide, by decide⟩

/-- Witness for the amended C7 at a concrete 2xx call. -/
theorem entry_shape_comparison_witness :
    (policyDo staticTags (gs "GET") (gs "u") (.ok bareURL) (.success 200 (gs "200 OK")) 4).1.map
      entryKeys = [policySuccess2xxKeys] ∧
    (roundTrip [] (gs "GET") (gs "p") bareURL.host (.success 200 (gs "200 OK")) 4).1.map
      entryKeys = [roundTripSuccessKeys] ∧
    (gs "code" ∈ policySuccess2xxKeys ↔ gs "code" ∈ roundTripSuccessKeys) :=
  ⟨(entry_shape_comparison.1 (gs "GET") (gs "u") bareURL (gs "p") 200 (gs "200 OK") 4 4
      (by decide)).1,
   (entry_shape_comparison.1 (gs "GET") (gs "u") bareURL (gs "p") 200 (gs "200 OK") 4 4
      (by decide)).2.1,
   (entry_shape_comparison.1 (gs "GET") (gs "u") bareURL (gs "p") 200 (gs "200 OK") 4 4
      (by decide)).2.2 (gs "code")⟩

/-- C8 counterexample: on a parse failure the entry carries sentinel
`"ERROR"` (not `"na"`) for the method, and has no `code` or `time_ms` key at
all. -/
theorem parse_failure_not_na :
    ((policyDo staticTags (gs "GET") (gs "bad") (.error (gs "parse error"))
        (.success 200 (gs "200 OK")) 2).1.map entryKeys) = [policyFailureKeys] ∧
    (((policyDo staticTags (gs "GET") (gs "bad") (.error (gs "parse error"))
        (.success 200 (gs "200 OK")) 2).1.map LogEntry.attrs).flatten.contains
      (gs "method", GoVal.str (gs "ERROR"))) = true ∧
    (((policyDo staticTags (gs "GET") (gs "bad") (.error (gs "parse error"))
        (.success 200 (gs "200 OK")) 2).1.map LogEntry.attrs).flatten.contains
      (gs "method", GoVal.str (gs "na"))) = false ∧
    gs "code" ∉ policyFailureKeys ∧ gs "time_ms" ∉ policyFailureKeys := by
  exact ⟨rfl, by decide, by decide, by decide, by decide⟩

/-- C8 amended: a URL parse failure produces exactly one Error-level entry
with sentinel `"ERROR"` for method and service, the raw URL and the parse
error message, no `code` or `time_ms` keys, no Info entry, and the parse
error propagated to the caller. -/
theorem parse_failure_entry (method rawURL parseErr : GoStr)
    (transport : TransportResult) (latency : Int) :
    ∃ e, (policyDo staticTags method rawURL (.error parseErr) transport latency).1 = [e] ∧
      e.severity = .error ∧
      (gs "method", GoVal.str (gs "ERROR")) ∈ e.attrs ∧
      (gs "service", GoVal.str (gs "ERROR")) ∈ e.attrs ∧
      (gs "url", GoVal.str rawURL) ∈ e.attrs ∧
      (gs "error", GoVal.str parseErr) ∈ e.attrs ∧
      entryKeys e = policyFailureKeys ∧
      gs "code" ∉ entryKeys e ∧ gs "time_ms" ∉ entryKeys e ∧
      (∀ e2 ∈ (policyDo staticTags method rawURL (.error parseErr) transport latency).1,
        e2.severity ≠ .info) ∧
      (policyDo staticTags method rawURL (.error parseErr) transport latency).2 =
        .error parseErr := by
  refine ⟨_, rfl, rfl, ?_, ?_, ?_, ?_, ?_, ?_, ?_, ?_, rfl⟩
  · simp [staticTags]
  · simp [staticTags]
  · simp [staticTags]
  · simp [staticTags]
  · simp [entryKeys, staticTags, policyFailureKeys]
  · simp [entryKeys, staticTags]
    decide
  · simp [entryKeys, staticTags]
    decide
  · intro e2 he2
    rcases List.mem_cons.mp he2 with rfl | hnil
    · simp
    · cases hnil

end AksMiddleware
